import Mathlib

/-!
# packer: the build-job lifecycle (`src/packer/build.go`)

A shallow embedding of `coreBuild`, its two methods `Prepare` and `Run`, and the
`Builder` interface they forward to.

Modelling choices, all read off the Go source:

* `*coreBuild` is a pointer, so jobs live in a heap `Ref → coreBuild` and the methods
  take the receiver's address. Several jobs can therefore coexist in one world.
* A Go call either returns or panics. `Outcome` records which, and in both cases the
  state reached: writes performed before a panic are not undone by the unwinding.
* `Builder` is an interface whose implementations are not part of this file's source.
  A backend is a pair of functions on an external state `E` (the backends' own state
  together with whatever the `Ui` sinks have received). The job handle reaches the
  backend as an address. The backend functions themselves do not call back into the
  job; what a holder of the handle can do with it is modelled apart, by `Build.useAll`.
* `World.calls` is a ghost log of the backend calls the job methods issue, in order,
  with their actual arguments. It is appended at the call site, before the backend
  body runs, so a call that panics is still logged as invoked.
-/

namespace packer

/-- Result of a Go call: a normal return or a panic with its message, each with the
state reached. -/
inductive Outcome (σ : Type) where
  | returned (s : σ)
  | panicked (msg : String) (s : σ)

/-- State in which the call ended, however it ended. -/
def Outcome.state {σ : Type} : Outcome σ → σ
  | .returned s => s
  | .panicked _ s => s

/-- Whether the call ended in a panic. -/
def Outcome.isPanic {σ : Type} : Outcome σ → Bool
  | .returned _ => false
  | .panicked _ _ => true

/-- Project the state carried by an outcome, keeping how the call ended. -/
def Outcome.map {σ τ : Type} (f : σ → τ) : Outcome σ → Outcome τ
  | .returned s => .returned (f s)
  | .panicked m s => .panicked m (f s)

/-- Address of a `coreBuild` on the heap (a `*coreBuild`). Seen through the `Build`
interface it is also the job handle given to `Builder.Run`. -/
abbrev Ref := Nat

/-- The `Builder` interface: `Prepare(config interface{})` and `Run(build Build, ui Ui)`,
as transformers of the external state. -/
structure Builder (Cfg Ui E : Type) where
  Prepare : Cfg → E → Outcome E
  Run : Ref → Ui → E → Outcome E

/-- The `coreBuild` struct. `prepareCalled` has Go's zero value when a literal leaves it
out. -/
structure coreBuild (Cfg Ui E : Type) where
  name : String
  builder : Builder Cfg Ui E
  rawConfig : Cfg
  prepareCalled : Bool := false

/-- One logged backend call: the job whose method issued it, and the arguments passed. -/
inductive BackendCall (Cfg Ui : Type) where
  | prepare (caller : Ref) (config : Cfg)
  | run (caller : Ref) (build : Ref) (ui : Ui)

/-- Program state: the heap of jobs, the external state, and the log of backend calls. -/
structure World (Cfg Ui E : Type) where
  heap : Ref → coreBuild Cfg Ui E
  ext : E
  calls : List (BackendCall Cfg Ui)

/-- A call into a backend operation `f`: log it, run it on the external state, and
propagate its outcome unchanged. -/
def World.invoke {Cfg Ui E : Type} (w : World Cfg Ui E) (c : BackendCall Cfg Ui)
    (f : E → Outcome E) : Outcome (World Cfg Ui E) :=
  match f w.ext with
  | .returned e => .returned { w with ext := e, calls := w.calls ++ [c] }
  | .panicked m e => .panicked m { w with ext := e, calls := w.calls ++ [c] }

/-- The method `func (b *coreBuild) Prepare()`:
`b.prepareCalled = true; b.builder.Prepare(b.rawConfig)`. -/
def coreBuild.Prepare {Cfg Ui E : Type} (b : Ref) (w : World Cfg Ui E) :
    Outcome (World Cfg Ui E) :=
  let w1 : World Cfg Ui E :=
    { w with heap := Function.update w.heap b { w.heap b with prepareCalled := true } }
  w1.invoke (.prepare b (w1.heap b).rawConfig) ((w1.heap b).builder.Prepare (w1.heap b).rawConfig)

/-- The method `func (b *coreBuild) Run(ui Ui)`:
`if !b.prepareCalled { panic("Prepare must be called first") }; b.builder.Run(b, ui)`. -/
def coreBuild.Run {Cfg Ui E : Type} (b : Ref) (ui : Ui) (w : World Cfg Ui E) :
    Outcome (World Cfg Ui E) :=
  if !(w.heap b).prepareCalled then
    .panicked "Prepare must be called first" w
  else
    w.invoke (.run b b ui) ((w.heap b).builder.Run b ui)

/-- The `Build` interface: the method set `Prepare()`, `Run(ui Ui)`. -/
structure Build (Ui σ : Type) where
  Prepare : σ → Outcome σ
  Run : Ui → σ → Outcome σ

/-- The job at address `b` viewed through the `Build` interface. -/
def coreBuild.asBuild {Cfg Ui E : Type} (b : Ref) : Build Ui (World Cfg Ui E) where
  Prepare := coreBuild.Prepare b
  Run := coreBuild.Run b

/-- A call a client can make on a job through the `Build` interface. -/
inductive Call (Ui : Type) where
  | prepare
  | run (ui : Ui)

/-- Perform one client call on the job at address `b`. -/
def step {Cfg Ui E : Type} (b : Ref) : Call Ui → World Cfg Ui E → Outcome (World Cfg Ui E)
  | .prepare, w => coreBuild.Prepare b w
  | .run ui, w => coreBuild.Run b ui w

/-- Straight-line client code `c₁; c₂; …`, each call on the job it names: a panic unwinds
the client, so the calls after it are not made. -/
def exec {Cfg Ui E : Type} : List (Ref × Call Ui) → World Cfg Ui E → Outcome (World Cfg Ui E)
  | [], w => .returned w
  | (b, c) :: cs, w =>
    match step b c w with
    | .returned w1 => exec cs w1
    | .panicked m w1 => .panicked m w1

/-- Client code that makes every call of the sequence, recovering from a panic of one
call before making the next. -/
def execAll {Cfg Ui E : Type} : List (Ref × Call Ui) → World Cfg Ui E → World Cfg Ui E
  | [], w => w
  | (b, c) :: cs, w => execAll cs (step b c w).state

/-- Calls of a sequence addressed to the single job `b`. -/
def onJob {Ui : Type} (b : Ref) (cs : List (Call Ui)) : List (Ref × Call Ui) :=
  cs.map (fun c => (b, c))

/-- A backend neither of whose operations ever panics. -/
def Builder.NeverFails {Cfg Ui E : Type} (B : Builder Cfg Ui E) : Prop :=
  (∀ c e, (B.Prepare c e).isPanic = false) ∧ (∀ h ui e, (B.Run h ui e).isPanic = false)

/-- The two states of the job's state machine. -/
inductive Lifecycle where
  | Unprepared
  | Prepared
deriving DecidableEq, Repr

/-- The state-machine state of a job, which is what its `prepareCalled` flag records. -/
def coreBuild.lifecycle {Cfg Ui E : Type} (j : coreBuild Cfg Ui E) : Lifecycle :=
  if j.prepareCalled then .Prepared else .Unprepared

/-- A logged backend call carries its caller's own data: a `Prepare` the `rawConfig`
that job has in `w`, a `Run` that job itself as the handle. -/
def BackendCall.own {Cfg Ui E : Type} (w : World Cfg Ui E) : BackendCall Cfg Ui → Prop
  | .prepare caller config => config = (w.heap caller).rawConfig
  | .run caller build _ => build = caller

/-- One thing the holder of a job handle can do: call a method of the `Build` interface
on it, or act on the external state, which is all it reaches besides the handle. -/
inductive HandleStep (Ui E : Type) where
  | call (c : Call Ui)
  | effect (f : E → E)

/-- Perform one step with the handle `h`; a method call goes through the interface and
its panic, if any, is recovered by the holder. -/
def Build.use {Cfg Ui E : Type} (h : Build Ui (World Cfg Ui E)) :
    HandleStep Ui E → World Cfg Ui E → World Cfg Ui E
  | .call .prepare, w => (h.Prepare w).state
  | .call (.run ui), w => (h.Run ui w).state
  | .effect f, w => { w with ext := f w.ext }

/-- Perform a sequence of steps with the handle `h`. -/
def Build.useAll {Cfg Ui E : Type} (h : Build Ui (World Cfg Ui E)) :
    List (HandleStep Ui E) → World Cfg Ui E → World Cfg Ui E
  | [], w => w
  | s :: ss, w => Build.useAll h ss (Build.use h s w)

/-! ## Concrete instances used to exercise the definitions -/

/-- External state of the sample backends: the configurations recorded by `Prepare` and
the messages each sink has received. -/
structure Ext where
  recorded : List String
  sink : List (Nat × String)
deriving DecidableEq, Repr

/-- Sample backend: `Prepare` records its input, `Run` writes "built" to the sink. -/
def recordingBuilder : Builder String Nat Ext where
  Prepare := fun c e => .returned { e with recorded := e.recorded ++ [c] }
  Run := fun _ ui e => .returned { e with sink := e.sink ++ [(ui, "built")] }

/-- Sample backend whose `Prepare` panics after recording its input. -/
def failingBuilder : Builder String Nat Ext where
  Prepare := fun c e => .panicked "invalid configuration" { e with recorded := e.recorded ++ [c] }
  Run := fun _ ui e => .returned { e with sink := e.sink ++ [(ui, "built")] }

/-- Two freshly constructed jobs at addresses 0 and 1 sharing the sample backend, with
different configurations; every other address holds a copy of the second. -/
def freshWorld : World String Nat Ext where
  heap := fun r =>
    if r = 0 then { name := "image-a", builder := recordingBuilder, rawConfig := "cfg-a" }
    else { name := "image-b", builder := recordingBuilder, rawConfig := "cfg-b" }
  ext := { recorded := [], sink := [] }
  calls := []

/-- A freshly constructed job at every address, on the backend whose `Prepare` panics. -/
def failingWorld : World String Nat Ext where
  heap := fun _ => { name := "image-c", builder := failingBuilder, rawConfig := "cfg-c" }
  ext := { recorded := [], sink := [] }
  calls := []

/-- Sample backend that also shows which handle it was given: `Prepare` records its
input, `Run` records the handle's address and writes "built" to the sink. -/
def tracingBuilder : Builder String Nat Ext where
  Prepare := fun c e => .returned { e with recorded := e.recorded ++ [c] }
  Run := fun h ui e =>
    .returned { recorded := e.recorded ++ ["handle " ++ Nat.repr h],
                sink := e.sink ++ [(ui, "built")] }

/-- Two freshly constructed jobs at addresses 0 and 1 sharing the tracing backend, with
different configurations; every other address holds a copy of the second. -/
def tracingWorld : World String Nat Ext where
  heap := fun r =>
    if r = 0 then { name := "image-a", builder := tracingBuilder, rawConfig := "cfg-a" }
    else { name := "image-b", builder := tracingBuilder, rawConfig := "cfg-b" }
  ext := { recorded := [], sink := [] }
  calls := []

/-! ## Basic facts -/

theorem Run_unprepared {Cfg Ui E : Type} (b : Ref) (ui : Ui) (w : World Cfg Ui E)
    (h : (w.heap b).prepareCalled = false) :
    coreBuild.Run b ui w = .panicked "Prepare must be called first" w := by
  simp [coreBuild.Run, h]

theorem Run_prepared {Cfg Ui E : Type} (b : Ref) (ui : Ui) (w : World Cfg Ui E)
    (h : (w.heap b).prepareCalled = true) :
    coreBuild.Run b ui w = w.invoke (.run b b ui) ((w.heap b).builder.Run b ui) := by
  simp [coreBuild.Run, h]

theorem invoke_heap {Cfg Ui E : Type} (w : World Cfg Ui E) (c : BackendCall Cfg Ui)
    (f : E → Outcome E) : (w.invoke c f).state.heap = w.heap := by
  unfold World.invoke
  cases f w.ext <;> rfl

theorem invoke_calls {Cfg Ui E : Type} (w : World Cfg Ui E) (c : BackendCall Cfg Ui)
    (f : E → Outcome E) : (w.invoke c f).state.calls = w.calls ++ [c] := by
  unfold World.invoke
  cases f w.ext <;> rfl

theorem invoke_ext {Cfg Ui E : Type} (w : World Cfg Ui E) (c : BackendCall Cfg Ui)
    (f : E → Outcome E) : (w.invoke c f).state.ext = (f w.ext).state := by
  unfold World.invoke
  cases f w.ext <;> rfl

theorem invoke_isPanic {Cfg Ui E : Type} (w : World Cfg Ui E) (c : BackendCall Cfg Ui)
    (f : E → Outcome E) : (w.invoke c f).isPanic = (f w.ext).isPanic := by
  unfold World.invoke
  cases f w.ext <;> rfl

theorem invoke_map_ext {Cfg Ui E : Type} (w : World Cfg Ui E) (c : BackendCall Cfg Ui)
    (f : E → Outcome E) : (w.invoke c f).map World.ext = f w.ext := by
  unfold World.invoke
  cases f w.ext <;> rfl

theorem Prepare_heap {Cfg Ui E : Type} (b : Ref) (w : World Cfg Ui E) :
    (coreBuild.Prepare b w).state.heap
      = Function.update w.heap b { w.heap b with prepareCalled := true } := by
  simp [coreBuild.Prepare, invoke_heap]

theorem Prepare_calls {Cfg Ui E : Type} (b : Ref) (w : World Cfg Ui E) :
    (coreBuild.Prepare b w).state.calls = w.calls ++ [.prepare b (w.heap b).rawConfig] := by
  simp [coreBuild.Prepare, invoke_calls]

theorem Prepare_ext {Cfg Ui E : Type} (b : Ref) (w : World Cfg Ui E) :
    (coreBuild.Prepare b w).state.ext
      = ((w.heap b).builder.Prepare (w.heap b).rawConfig w.ext).state := by
  simp [coreBuild.Prepare, invoke_ext]

theorem Prepare_isPanic {Cfg Ui E : Type} (b : Ref) (w : World Cfg Ui E) :
    (coreBuild.Prepare b w).isPanic
      = ((w.heap b).builder.Prepare (w.heap b).rawConfig w.ext).isPanic := by
  simp [coreBuild.Prepare, invoke_isPanic]

theorem Prepare_flag {Cfg Ui E : Type} (b : Ref) (w : World Cfg Ui E) :
    ((coreBuild.Prepare b w).state.heap b).prepareCalled = true := by
  simp [Prepare_heap]

theorem Run_heap {Cfg Ui E : Type} (b : Ref) (ui : Ui) (w : World Cfg Ui E) :
    (coreBuild.Run b ui w).state.heap = w.heap := by
  unfold coreBuild.Run
  split
  · rfl
  · exact invoke_heap _ _ _

theorem Run_prepared_calls {Cfg Ui E : Type} (b : Ref) (ui : Ui) (w : World Cfg Ui E)
    (h : (w.heap b).prepareCalled = true) :
    (coreBuild.Run b ui w).state.calls = w.calls ++ [.run b b ui] := by
  rw [Run_prepared b ui w h, invoke_calls]

theorem Run_prepared_ext {Cfg Ui E : Type} (b : Ref) (ui : Ui) (w : World Cfg Ui E)
    (h : (w.heap b).prepareCalled = true) :
    (coreBuild.Run b ui w).state.ext = ((w.heap b).builder.Run b ui w.ext).state := by
  rw [Run_prepared b ui w h, invoke_ext]

theorem Run_prepared_isPanic {Cfg Ui E : Type} (b : Ref) (ui : Ui) (w : World Cfg Ui E)
    (h : (w.heap b).prepareCalled = true) :
    (coreBuild.Run b ui w).isPanic = ((w.heap b).builder.Run b ui w.ext).isPanic := by
  rw [Run_prepared b ui w h, invoke_isPanic]

/-- What a single call does to the heap cell of any job `p`: nothing, except that a
`Prepare` on `p` itself sets its flag. -/
theorem step_heap {Cfg Ui E : Type} (q : Ref) (c : Call Ui) (w : World Cfg Ui E) (p : Ref) :
    (step q c w).state.heap p = w.heap p
      ∨ (q = p ∧ c = .prepare
          ∧ (step q c w).state.heap p = { w.heap p with prepareCalled := true }) := by
  cases c with
  | prepare =>
    by_cases hq : q = p
    · subst hq
      right
      simp [step, Prepare_heap]
    · left
      have hp : p ≠ q := fun e => hq e.symm
      simp [step, Prepare_heap, Function.update_noteq hp]
  | run ui =>
    left
    simp [step, Run_heap]

theorem execAll_append {Cfg Ui E : Type} (xs ys : List (Ref × Call Ui)) (w : World Cfg Ui E) :
    execAll (xs ++ ys) w = execAll ys (execAll xs w) := by
  induction xs generalizing w with
  | nil => rfl
  | cons x xs ih =>
    obtain ⟨b, c⟩ := x
    simp [execAll, ih]

theorem exec_cons_returned {Cfg Ui E : Type} (b : Ref) (c : Call Ui)
    (cs : List (Ref × Call Ui)) (w w1 : World Cfg Ui E) (h : step b c w = .returned w1) :
    exec ((b, c) :: cs) w = exec cs w1 := by
  simp only [exec, h]

theorem exec_single {Cfg Ui E : Type} (b : Ref) (c : Call Ui) (w : World Cfg Ui E) :
    exec [(b, c)] w = step b c w := by
  simp only [exec]
  cases step b c w <;> rfl

theorem exec_returned_eq_execAll {Cfg Ui E : Type} (cs : List (Ref × Call Ui))
    (w w1 : World Cfg Ui E) (h : exec cs w = .returned w1) : execAll cs w = w1 := by
  induction cs generalizing w with
  | nil =>
    simp [exec] at h
    simpa [execAll] using h
  | cons x xs ih =>
    obtain ⟨b, c⟩ := x
    simp only [exec] at h
    cases hs : step b c w with
    | returned w2 =>
      rw [hs] at h
      simp only [execAll, hs, Outcome.state]
      exact ih w2 h
    | panicked m w2 =>
      rw [hs] at h
      cases h

theorem Outcome.eq_returned {σ : Type} (o : Outcome σ) (h : o.isPanic = false) :
    o = .returned o.state := by
  cases o with
  | returned s => rfl
  | panicked m s => cases h

theorem Prepare_cell {Cfg Ui E : Type} (b : Ref) (w : World Cfg Ui E) :
    (coreBuild.Prepare b w).state.heap b = { w.heap b with prepareCalled := true } := by
  simp [Prepare_heap]

theorem Prepare_heap_twice {Cfg Ui E : Type} (b : Ref) (w : World Cfg Ui E) :
    (coreBuild.Prepare b (coreBuild.Prepare b w).state).state.heap
      = (coreBuild.Prepare b w).state.heap := by
  rw [Prepare_heap b (coreBuild.Prepare b w).state, Prepare_cell, Prepare_heap]
  simp

/-- Repeating `Prepare`: the heap is the one a single `Prepare` leaves, and each call
logged one backend `Prepare` with the job's configuration. -/
theorem execAll_prepares {Cfg Ui E : Type} (b : Ref) (n : Nat) (w : World Cfg Ui E) :
    (execAll (onJob b (List.replicate (n + 1) .prepare)) w).heap
        = (coreBuild.Prepare b w).state.heap
      ∧ (execAll (onJob b (List.replicate (n + 1) .prepare)) w).calls
        = w.calls ++ List.replicate (n + 1) (.prepare b (w.heap b).rawConfig) := by
  induction n generalizing w with
  | zero =>
    simp [onJob, execAll, step, Prepare_calls]
  | succ n ih =>
    have h := ih (coreBuild.Prepare b w).state
    rw [Prepare_heap_twice, Prepare_calls, Prepare_cell] at h
    have e : execAll (onJob b (List.replicate (n + 1 + 1) .prepare)) w
        = execAll (onJob b (List.replicate (n + 1) .prepare)) (coreBuild.Prepare b w).state := by
      simp [onJob, List.replicate_succ, execAll, step]
    rw [e]
    refine ⟨h.1, ?_⟩
    rw [h.2]
    simp [List.replicate_succ]

/-- With a backend that never panics, a `Prepare` returns. -/
theorem Prepare_returns {Cfg Ui E : Type} (b : Ref) (w : World Cfg Ui E)
    (hB : (w.heap b).builder.NeverFails) :
    coreBuild.Prepare b w = .returned (coreBuild.Prepare b w).state :=
  Outcome.eq_returned _ (by rw [Prepare_isPanic]; exact hB.1 _ _)

/-- With a backend that never panics, a `Run` on a prepared job returns. -/
theorem Run_returns {Cfg Ui E : Type} (b : Ref) (ui : Ui) (w : World Cfg Ui E)
    (hf : (w.heap b).prepareCalled = true) (hB : (w.heap b).builder.NeverFails) :
    coreBuild.Run b ui w = .returned (coreBuild.Run b ui w).state :=
  Outcome.eq_returned _ (by rw [Run_prepared_isPanic b ui w hf]; exact hB.2 _ _ _)

/-- On a prepared job with a backend that never panics, every sequence of calls runs to
completion. -/
theorem exec_onJob_prepared {Cfg Ui E : Type} (b : Ref) (cs : List (Call Ui))
    (w : World Cfg Ui E) (hf : (w.heap b).prepareCalled = true)
    (hB : (w.heap b).builder.NeverFails) :
    exec (onJob b cs) w = .returned (execAll (onJob b cs) w) := by
  induction cs generalizing w with
  | nil => rfl
  | cons c cs ih =>
    have hs : step b c w = .returned (step b c w).state := by
      cases c with
      | prepare => exact Prepare_returns b w hB
      | run ui => exact Run_returns b ui w hf hB
    have hcell : (step b c w).state.heap b = w.heap b := by
      cases c with
      | prepare =>
        simp only [step]
        rw [Prepare_cell, ← hf]
      | run ui => simp [step, Run_heap]
    have e1 : exec (onJob b (c :: cs)) w = exec (onJob b cs) (step b c w).state :=
      exec_cons_returned b c _ w _ hs
    have e2 : execAll (onJob b (c :: cs)) w = execAll (onJob b cs) (step b c w).state := by
      simp only [onJob, List.map_cons, execAll]
    rw [e1, e2]
    exact ih _ (by rw [hcell]; exact hf) (by rw [hcell]; exact hB)

/-- With a backend that never panics, a sequence that starts with `Prepare` runs to
completion. -/
theorem exec_onJob_prepare_first {Cfg Ui E : Type} (b : Ref) (cs : List (Call Ui))
    (w : World Cfg Ui E) (hB : (w.heap b).builder.NeverFails) :
    exec (onJob b (.prepare :: cs)) w = .returned (execAll (onJob b (.prepare :: cs)) w) := by
  have e1 : exec (onJob b (.prepare :: cs)) w
      = exec (onJob b cs) (coreBuild.Prepare b w).state :=
    exec_cons_returned b .prepare _ w _ (Prepare_returns b w hB)
  have e2 : execAll (onJob b (.prepare :: cs)) w
      = execAll (onJob b cs) (coreBuild.Prepare b w).state := by
    simp only [onJob, List.map_cons, execAll, step]
  rw [e1, e2]
  exact exec_onJob_prepared b cs _ (Prepare_flag b w) (by rw [Prepare_cell]; exact hB)

theorem recordingBuilder_neverFails : recordingBuilder.NeverFails :=
  ⟨fun _ _ => rfl, fun _ _ _ => rfl⟩

/-- A property of worlds kept by every single call is kept by every sequence in which
all calls are made. -/
theorem execAll_inv {Cfg Ui E : Type} (P : World Cfg Ui E → Prop)
    (hstep : ∀ q c w, P w → P (step q c w).state) (ops : List (Ref × Call Ui))
    (w : World Cfg Ui E) (h : P w) : P (execAll ops w) := by
  induction ops generalizing w with
  | nil => exact h
  | cons x xs ih =>
    obtain ⟨q, c⟩ := x
    exact ih _ (hstep q c w h)

/-- A property of worlds kept by every single call holds where straight-line client
code ends, whether it returns or stops at a panic. -/
theorem exec_inv {Cfg Ui E : Type} (P : World Cfg Ui E → Prop)
    (hstep : ∀ q c w, P w → P (step q c w).state) (ops : List (Ref × Call Ui))
    (w : World Cfg Ui E) (h : P w) : P (exec ops w).state := by
  induction ops generalizing w with
  | nil => exact h
  | cons x xs ih =>
    obtain ⟨q, c⟩ := x
    have h1 := hstep q c w h
    cases hs : step q c w with
    | returned w1 =>
      rw [exec_cons_returned q c xs w w1 hs]
      rw [hs] at h1
      exact ih w1 h1
    | panicked m w1 =>
      rw [hs] at h1
      simp only [exec, hs]
      exact h1

theorem step_flag_mono {Cfg Ui E : Type} (q : Ref) (c : Call Ui) (w : World Cfg Ui E) (p : Ref)
    (h : (w.heap p).prepareCalled = true) :
    ((step q c w).state.heap p).prepareCalled = true := by
  rcases step_heap q c w p with e | ⟨_, _, e⟩
  · rw [e]; exact h
  · rw [e]

theorem step_frame {Cfg Ui E : Type} (q : Ref) (c : Call Ui) (w : World Cfg Ui E) (p : Ref) :
    ((step q c w).state.heap p).name = (w.heap p).name
      ∧ ((step q c w).state.heap p).builder = (w.heap p).builder
      ∧ ((step q c w).state.heap p).rawConfig = (w.heap p).rawConfig := by
  rcases step_heap q c w p with e | ⟨_, _, e⟩ <;> rw [e] <;> exact ⟨rfl, rfl, rfl⟩

/-- A call that turns a job's flag from false to true is a `Prepare` on that job. -/
theorem step_sets_flag {Cfg Ui E : Type} (q : Ref) (c : Call Ui) (w : World Cfg Ui E) (p : Ref)
    (h0 : (w.heap p).prepareCalled = false)
    (h1 : ((step q c w).state.heap p).prepareCalled = true) : q = p ∧ c = .prepare := by
  rcases step_heap q c w p with e | ⟨hq, hc, _⟩
  · rw [e, h0] at h1
    cases h1
  · exact ⟨hq, hc⟩

/-- Consecutive `Run`s on a prepared job: the heap stays as it is and each call logs one
backend `Run` with the job itself as handle and the `ui` it was given. -/
theorem execAll_runs {Cfg Ui E : Type} (b : Ref) (uis : List Ui) (w : World Cfg Ui E)
    (hf : (w.heap b).prepareCalled = true) :
    (execAll (onJob b (uis.map .run)) w).heap = w.heap
      ∧ (execAll (onJob b (uis.map .run)) w).calls
          = w.calls ++ uis.map (fun u => .run b b u) := by
  induction uis generalizing w with
  | nil => simp [onJob, execAll]
  | cons u us ih =>
    have e : execAll (onJob b ((u :: us).map .run)) w
        = execAll (onJob b (us.map .run)) (coreBuild.Run b u w).state := by
      simp only [onJob, List.map_cons, execAll, step]
    have hh := Run_heap b u w
    obtain ⟨h1, h2⟩ := ih (coreBuild.Run b u w).state (by rw [hh]; exact hf)
    rw [e]
    refine ⟨h1.trans hh, ?_⟩
    rw [h2, Run_prepared_calls b u w hf]
    simp

/-- Every call logged by a sequence of calls carries its caller's own data, and no
`rawConfig` on the heap moves. -/
theorem execAll_calls_own {Cfg Ui E : Type} (ops : List (Ref × Call Ui))
    (w : World Cfg Ui E) :
    (∀ p, ((execAll ops w).heap p).rawConfig = (w.heap p).rawConfig)
      ∧ ∃ t, (execAll ops w).calls = w.calls ++ t ∧ ∀ ev ∈ t, BackendCall.own w ev := by
  refine execAll_inv (fun v => (∀ p, (v.heap p).rawConfig = (w.heap p).rawConfig)
      ∧ ∃ t, v.calls = w.calls ++ t ∧ ∀ ev ∈ t, BackendCall.own w ev) ?_ ops w
      ⟨fun _ => rfl, [], by simp, by simp⟩
  intro q c v hv
  obtain ⟨hcfg, t, ht, hown⟩ := hv
  refine ⟨fun p => (step_frame q c v p).2.2.trans (hcfg p), ?_⟩
  cases c with
  | prepare =>
    refine ⟨t ++ [.prepare q (v.heap q).rawConfig], ?_, ?_⟩
    · simp only [step]
      rw [Prepare_calls, ht, List.append_assoc]
    · intro ev hev
      rcases List.mem_append.1 hev with h | h
      · exact hown ev h
      · rw [List.mem_singleton.1 h]
        exact hcfg q
  | run ui =>
    by_cases hf : (v.heap q).prepareCalled = true
    · refine ⟨t ++ [.run q q ui], ?_, ?_⟩
      · simp only [step]
        rw [Run_prepared_calls q ui v hf, ht, List.append_assoc]
      · intro ev hev
        rcases List.mem_append.1 hev with h | h
        · exact hown ev h
        · rw [List.mem_singleton.1 h]
          rfl
    · have hf0 : (v.heap q).prepareCalled = false := by simpa using hf
      refine ⟨t, ?_, hown⟩
      simp only [step]
      rw [Run_unprepared q ui v hf0]
      exact ht

/-- Calls that are all addressed to other jobs leave a job's heap cell as it is. -/
theorem execAll_other_jobs {Cfg Ui E : Type} (a : Ref) (ops : List (Ref × Call Ui))
    (w : World Cfg Ui E) (h : ∀ op ∈ ops, op.1 ≠ a) : (execAll ops w).heap a = w.heap a := by
  induction ops generalizing w with
  | nil => rfl
  | cons x xs ih =>
    obtain ⟨q, c⟩ := x
    have hq : q ≠ a := h (q, c) (List.mem_cons_self _ _)
    have hx : (step q c w).state.heap a = w.heap a := by
      rcases step_heap q c w a with e | ⟨e, _, _⟩
      · exact e
      · exact absurd e hq
    have := ih (step q c w).state (fun op hop => h op (List.mem_cons_of_mem _ hop))
    simp only [execAll]
    rw [this, hx]

/-- A step made with the handle of job `b` keeps the flag of any prepared job `p`. -/
theorem use_flag_mono {Cfg Ui E : Type} (b : Ref) (s : HandleStep Ui E) (w : World Cfg Ui E)
    (p : Ref) (h : (w.heap p).prepareCalled = true) :
    ((Build.use (coreBuild.asBuild b) s w).heap p).prepareCalled = true := by
  cases s with
  | call c =>
    cases c with
    | prepare => exact step_flag_mono b .prepare w p h
    | run ui => exact step_flag_mono b (.run ui) w p h
  | effect f => exact h

theorem useAll_flag_mono {Cfg Ui E : Type} (b : Ref) (ss : List (HandleStep Ui E))
    (w : World Cfg Ui E) (p : Ref) (h : (w.heap p).prepareCalled = true) :
    ((Build.useAll (coreBuild.asBuild b) ss w).heap p).prepareCalled = true := by
  induction ss generalizing w with
  | nil => exact h
  | cons s ss ih => exact ih _ (use_flag_mono b s w p h)

theorem Prepare_map_ext {Cfg Ui E : Type} (b : Ref) (w : World Cfg Ui E) :
    (coreBuild.Prepare b w).map World.ext
      = (w.heap b).builder.Prepare (w.heap b).rawConfig w.ext := by
  simp [coreBuild.Prepare, invoke_map_ext]

theorem Run_prepared_map_ext {Cfg Ui E : Type} (b : Ref) (ui : Ui) (w : World Cfg Ui E)
    (h : (w.heap b).prepareCalled = true) :
    (coreBuild.Run b ui w).map World.ext = (w.heap b).builder.Run b ui w.ext := by
  rw [Run_prepared b ui w h, invoke_map_ext]

theorem exec_append_returned {Cfg Ui E : Type} (xs ys : List (Ref × Call Ui))
    (w w1 : World Cfg Ui E) (h : exec xs w = .returned w1) :
    exec (xs ++ ys) w = exec ys w1 := by
  induction xs generalizing w with
  | nil =>
    simp only [exec] at h
    cases h
    rfl
  | cons x xs ih =>
    obtain ⟨q, c⟩ := x
    cases hs : step q c w with
    | returned w2 =>
      rw [exec_cons_returned q c xs w w2 hs] at h
      rw [List.cons_append, exec_cons_returned q c (xs ++ ys) w w2 hs]
      exact ih w2 h
    | panicked m w2 =>
      simp only [exec, hs] at h
      cases h

/-- Repeating `Prepare`: the external state is the one obtained by applying the backend's
`Prepare` to the job's `rawConfig` once per call, in a chain. -/
theorem execAll_prepares_ext {Cfg Ui E : Type} (b : Ref) (n : Nat) (w : World Cfg Ui E) :
    (execAll (onJob b (List.replicate n .prepare)) w).ext
      = (fun e => ((w.heap b).builder.Prepare (w.heap b).rawConfig e).state)^[n] w.ext := by
  induction n generalizing w with
  | zero => rfl
  | succ n ih =>
    have e : execAll (onJob b (List.replicate (n + 1) .prepare)) w
        = execAll (onJob b (List.replicate n .prepare)) (coreBuild.Prepare b w).state := by
      simp [onJob, List.replicate_succ, execAll, step]
    rw [e, ih (coreBuild.Prepare b w).state, Prepare_cell, Prepare_ext,
      Function.iterate_succ_apply]

/-- Consecutive `Run`s on a prepared job: the external state is the one obtained by
applying the backend's `Run`, with the job as handle, once per call, in a chain. -/
theorem execAll_runs_ext {Cfg Ui E : Type} (b : Ref) (uis : List Ui) (w : World Cfg Ui E)
    (hf : (w.heap b).prepareCalled = true) :
    (execAll (onJob b (uis.map .run)) w).ext
      = uis.foldl (fun e u => ((w.heap b).builder.Run b u e).state) w.ext := by
  induction uis generalizing w with
  | nil => rfl
  | cons u us ih =>
    have e : execAll (onJob b ((u :: us).map .run)) w
        = execAll (onJob b (us.map .run)) (coreBuild.Run b u w).state := by
      simp only [onJob, List.map_cons, execAll, step]
    have hh := Run_heap b u w
    rw [e, ih (coreBuild.Run b u w).state (by rw [hh]; exact hf), hh,
      Run_prepared_ext b u w hf, List.foldl_cons]

/-- In every state reached by a sequence of calls, a job still has the `builder` and
`rawConfig` it started with. -/
theorem execAll_frame {Cfg Ui E : Type} (ops : List (Ref × Call Ui)) (w : World Cfg Ui E)
    (p : Ref) :
    ((execAll ops w).heap p).builder = (w.heap p).builder
      ∧ ((execAll ops w).heap p).rawConfig = (w.heap p).rawConfig := by
  refine execAll_inv (fun v => (v.heap p).builder = (w.heap p).builder
      ∧ (v.heap p).rawConfig = (w.heap p).rawConfig) ?_ ops w ⟨rfl, rfl⟩
  intro q c v hv
  obtain ⟨_, h2, h3⟩ := step_frame q c v p
  exact ⟨h2.trans hv.1, h3.trans hv.2⟩

/-! ## Claims -/

/-- C1. On a job whose `prepareCalled` is false, `Run(ui)` panics with
"Prepare must be called first" for every `ui`, and does so in the unchanged world: no
backend call is logged and the external state (backend and sinks) is untouched. -/
theorem C1_run_before_prepare_panics {Cfg Ui E : Type} (w : World Cfg Ui E) (b : Ref) (ui : Ui)
    (h : (w.heap b).prepareCalled = false) :
    coreBuild.Run b ui w = .panicked "Prepare must be called first" w
      ∧ (coreBuild.Run b ui w).isPanic = true
      ∧ (coreBuild.Run b ui w).state.calls = w.calls
      ∧ (coreBuild.Run b ui w).state.ext = w.ext := by
  rw [Run_unprepared b ui w h]
  exact ⟨rfl, rfl, rfl, rfl⟩

/-- C1 at the fresh job "image-b" (address 1) and sink 7. -/
theorem C1_run_before_prepare_panics_witness :
    (freshWorld.heap 1).prepareCalled = false
      ∧ (coreBuild.Run 1 7 freshWorld = .panicked "Prepare must be called first" freshWorld
        ∧ (coreBuild.Run 1 7 freshWorld).isPanic = true
        ∧ (coreBuild.Run 1 7 freshWorld).state.calls = freshWorld.calls
        ∧ (coreBuild.Run 1 7 freshWorld).state.ext = freshWorld.ext) :=
  ⟨rfl, C1_run_before_prepare_panics freshWorld 1 7 rfl⟩

/-- C2. `b.Prepare()` followed by `b.Run(ui)`, for any job, backend and `ui`: the
backend calls issued are exactly `Prepare(b.rawConfig)` and then `Run(b, ui)`, nothing
else; the external state is the one obtained by applying the backend's `Prepare` and then
its `Run` once each; and when `Prepare` returns, the two-call client code is the `Run`
made in the state `Prepare` left. -/
theorem C2_prepare_then_run {Cfg Ui E : Type} (w : World Cfg Ui E) (b : Ref) (ui : Ui) :
    (coreBuild.Prepare b w).state.calls = w.calls ++ [.prepare b (w.heap b).rawConfig]
      ∧ (coreBuild.Run b ui (coreBuild.Prepare b w).state).state.calls
          = w.calls ++ [.prepare b (w.heap b).rawConfig, .run b b ui]
      ∧ (coreBuild.Run b ui (coreBuild.Prepare b w).state).state.ext
          = ((w.heap b).builder.Run b ui
              ((w.heap b).builder.Prepare (w.heap b).rawConfig w.ext).state).state
      ∧ execAll (onJob b [.prepare, .run ui]) w
          = (coreBuild.Run b ui (coreBuild.Prepare b w).state).state
      ∧ (∀ w1, coreBuild.Prepare b w = .returned w1 →
          exec (onJob b [.prepare, .run ui]) w = coreBuild.Run b ui w1
            ∧ coreBuild.Run b ui w1
                = w1.invoke (.run b b ui) ((w.heap b).builder.Run b ui)) := by
  have hf := Prepare_flag b w
  have hc := Prepare_cell b w
  refine ⟨Prepare_calls b w, ?_, ?_, ?_, ?_⟩
  · rw [Run_prepared_calls b ui _ hf, Prepare_calls]
    simp
  · rw [Run_prepared_ext b ui _ hf, Prepare_ext, hc]
  · simp [onJob, execAll, step]
  · intro w1 h1
    have hw : (coreBuild.Prepare b w).state = w1 := by rw [h1]; rfl
    rw [hw] at hf hc
    refine ⟨?_, ?_⟩
    · have e : exec (onJob b [.prepare, .run ui]) w = exec [(b, .run ui)] w1 :=
        exec_cons_returned b .prepare _ w w1 h1
      rw [e, exec_single]
      rfl
    · rw [Run_prepared b ui w1 hf, hc]

/-- C3. After `n ≥ 1` calls of `Prepare` on a job: the backend's `Prepare` was called
exactly `n` times, each time with the job's `rawConfig`, both in the call log and in the
external state, which is the backend's `Prepare` on `rawConfig` applied `n` times in a
chain; `prepareCalled` is true; the heap is the one a single `Prepare` leaves; a following
`Run(ui)` issues exactly one backend `Run(b, ui)` and ends exactly as that backend call
does on the external state; and with a backend that never panics the whole sequence
`Prepare; …; Prepare; Run(ui)` is that `Run` made after the `n` prepares, and it returns
normally. -/
theorem C3_repeated_prepare {Cfg Ui E : Type} (w : World Cfg Ui E) (b : Ref) (n : Nat)
    (ui : Ui) (hn : 1 ≤ n) :
    (execAll (onJob b (List.replicate n .prepare)) w).calls
        = w.calls ++ List.replicate n (.prepare b (w.heap b).rawConfig)
      ∧ (execAll (onJob b (List.replicate n .prepare)) w).ext
          = (fun e => ((w.heap b).builder.Prepare (w.heap b).rawConfig e).state)^[n] w.ext
      ∧ ((execAll (onJob b (List.replicate n .prepare)) w).heap b).prepareCalled = true
      ∧ (execAll (onJob b (List.replicate n .prepare)) w).heap
          = (coreBuild.Prepare b w).state.heap
      ∧ (coreBuild.Run b ui (execAll (onJob b (List.replicate n .prepare)) w)).state.calls
          = (execAll (onJob b (List.replicate n .prepare)) w).calls ++ [.run b b ui]
      ∧ (coreBuild.Run b ui (execAll (onJob b (List.replicate n .prepare)) w)).map World.ext
          = (w.heap b).builder.Run b ui
              ((fun e => ((w.heap b).builder.Prepare (w.heap b).rawConfig e).state)^[n] w.ext)
      ∧ (coreBuild.Run b ui (execAll (onJob b (List.replicate n .prepare)) w)).isPanic
          = ((w.heap b).builder.Run b ui
              (execAll (onJob b (List.replicate n .prepare)) w).ext).isPanic
      ∧ ((w.heap b).builder.NeverFails →
          exec (onJob b (List.replicate n .prepare ++ [.run ui])) w
              = coreBuild.Run b ui (execAll (onJob b (List.replicate n .prepare)) w)
            ∧ (exec (onJob b (List.replicate n .prepare ++ [.run ui])) w).isPanic = false
            ∧ ∃ w1, exec (onJob b (List.replicate n .prepare ++ [.run ui])) w
                = .returned w1) := by
  obtain ⟨m, rfl⟩ : ∃ m, n = m + 1 := ⟨n - 1, by omega⟩
  obtain ⟨hh, hc⟩ := @execAll_prepares Cfg Ui E b m w
  have hx := @execAll_prepares_ext Cfg Ui E b (m + 1) w
  have hf : ((execAll (onJob b (List.replicate (m + 1) .prepare)) w).heap b).prepareCalled
      = true := by
    rw [hh]; exact Prepare_flag b w
  have hcell : (execAll (onJob b (List.replicate (m + 1) .prepare)) w).heap b
      = { w.heap b with prepareCalled := true } := by
    rw [hh]; exact Prepare_cell b w
  have hp : (coreBuild.Run b ui (execAll (onJob b (List.replicate (m + 1) .prepare)) w)).isPanic
      = ((w.heap b).builder.Run b ui
          (execAll (onJob b (List.replicate (m + 1) .prepare)) w).ext).isPanic := by
    rw [Run_prepared_isPanic b ui _ hf, hcell]
  refine ⟨hc, hx, hf, hh, Run_prepared_calls b ui _ hf, ?_, hp, ?_⟩
  · rw [Run_prepared_map_ext b ui _ hf, hcell, hx]
  · intro hB
    have e1 : exec (onJob b (List.replicate (m + 1) .prepare)) w
        = .returned (execAll (onJob b (List.replicate (m + 1) .prepare)) w) := by
      rw [List.replicate_succ]
      exact exec_onJob_prepare_first b _ w hB
    have e2 : exec (onJob b (List.replicate (m + 1) .prepare ++ [.run ui])) w
        = coreBuild.Run b ui (execAll (onJob b (List.replicate (m + 1) .prepare)) w) := by
      have := exec_append_returned (onJob b (List.replicate (m + 1) .prepare))
        [(b, .run ui)] w _ e1
      rw [exec_single] at this
      simpa [onJob] using this
    have e3 : (coreBuild.Run b ui
        (execAll (onJob b (List.replicate (m + 1) .prepare)) w)).isPanic = false := by
      rw [hp]; exact hB.2 _ _ _
    refine ⟨e2, by rw [e2]; exact e3, ?_⟩
    rw [e2]
    exact ⟨_, Outcome.eq_returned _ e3⟩

/-- C3 for the job "image-a" prepared twice and then run on sink 7: the backend has
recorded the configuration twice and written to the sink once. -/
theorem C3_repeated_prepare_witness :
    1 ≤ 2 ∧ recordingBuilder.NeverFails
      ∧ (execAll (onJob 0 (List.replicate 2 .prepare)) freshWorld).calls
          = freshWorld.calls ++ List.replicate 2 (.prepare 0 (freshWorld.heap 0).rawConfig)
      ∧ (execAll (onJob 0 (List.replicate 2 .prepare)) freshWorld).ext
          = { recorded := ["cfg-a", "cfg-a"], sink := [] }
      ∧ (coreBuild.Run 0 7 (execAll (onJob 0 (List.replicate 2 .prepare)) freshWorld)).map
            World.ext
          = .returned { recorded := ["cfg-a", "cfg-a"], sink := [(7, "built")] }
      ∧ (∃ w1, exec (onJob 0 (List.replicate 2 .prepare ++ [.run 7])) freshWorld
          = .returned w1) :=
  have h := C3_repeated_prepare freshWorld 0 2 7 (by decide)
  ⟨by decide, recordingBuilder_neverFails, h.1, h.2.1.trans rfl, h.2.2.2.2.2.1.trans rfl,
    (h.2.2.2.2.2.2.2 recordingBuilder_neverFails).2.2⟩

/-- C4, as the code has it. `Prepare` sets `prepareCalled` before it calls the backend:
whatever the backend's `Prepare` does, the backend call has been made and the flag is true
in the state `coreBuild.Prepare` leaves, and a later `Run(ui)` passes the ordering check
and forwards to the backend's `Run`. When the backend's `Prepare` panics, the panic
propagates out of `coreBuild.Prepare`, with the flag already true. The flag is still set
by nothing but `Prepare`: a call that turns a job's flag from false to true is a `Prepare`
on that job. -/
theorem C4_flag_set_before_backend_call {Cfg Ui E : Type} (w : World Cfg Ui E) (b : Ref)
    (ui : Ui) :
    (coreBuild.Prepare b w).state.calls = w.calls ++ [.prepare b (w.heap b).rawConfig]
      ∧ ((coreBuild.Prepare b w).state.heap b).prepareCalled = true
      ∧ coreBuild.Run b ui (coreBuild.Prepare b w).state
          = (coreBuild.Prepare b w).state.invoke (.run b b ui) ((w.heap b).builder.Run b ui)
      ∧ (((w.heap b).builder.Prepare (w.heap b).rawConfig w.ext).isPanic = true →
          (coreBuild.Prepare b w).isPanic = true
            ∧ ((coreBuild.Prepare b w).state.heap b).prepareCalled = true)
      ∧ (∀ (q : Ref) (c : Call Ui), (w.heap b).prepareCalled = false →
          ((step q c w).state.heap b).prepareCalled = true → q = b ∧ c = .prepare) := by
  refine ⟨Prepare_calls b w, Prepare_flag b w, ?_, ?_, ?_⟩
  · rw [Run_prepared b ui _ (Prepare_flag b w), Prepare_cell]
  · intro hp
    refine ⟨?_, Prepare_flag b w⟩
    rw [Prepare_isPanic, hp]
  · intro q c h0 h1
    exact step_sets_flag q c w b h0 h1

/-- C4 on a fresh job whose backend's `Prepare` panics. -/
theorem C4_flag_set_before_backend_call_witness :
    ((failingWorld.heap 0).builder.Prepare (failingWorld.heap 0).rawConfig
        failingWorld.ext).isPanic = true
      ∧ (coreBuild.Prepare 0 failingWorld).isPanic = true
      ∧ ((coreBuild.Prepare 0 failingWorld).state.heap 0).prepareCalled = true :=
  ⟨rfl, (C4_flag_set_before_backend_call failingWorld 0 7).2.2.2.1 rfl⟩

/-- C4 as stated fails: on a fresh job (flag false) whose backend's `Prepare` panics,
`prepareCalled` is true after `Prepare`, and the subsequent `Run` does not fail: it
returns, having called the backend's `Run`. -/
theorem C4_counterexample :
    (failingWorld.heap 0).prepareCalled = false
      ∧ (failingBuilder.Prepare "cfg-c" failingWorld.ext).isPanic = true
      ∧ ((coreBuild.Prepare 0 failingWorld).state.heap 0).prepareCalled = true
      ∧ (coreBuild.Run 0 7 (coreBuild.Prepare 0 failingWorld).state).isPanic = false
      ∧ (coreBuild.Run 0 7 (coreBuild.Prepare 0 failingWorld).state).state.ext.sink
          = [(7, "built")] := by
  refine ⟨rfl, rfl, ?_, ?_, ?_⟩
  · exact Prepare_flag 0 failingWorld
  · rw [Run_prepared_isPanic 0 7 _ (Prepare_flag 0 failingWorld)]
    rfl
  · rw [Run_prepared_ext 0 7 _ (Prepare_flag 0 failingWorld)]
    rfl

/-- C5. A job built by a struct literal that leaves `prepareCalled` out is Unprepared;
and once `prepareCalled` is true after some calls `pre`, it is true after every further
sequence of calls `post` (on this or any other job), whether every call is made or the
client stops at the first panic, and in particular after each single call. -/
theorem C5_prepared_flag_never_reverts {Cfg Ui E : Type} (w : World Cfg Ui E)
    (pre post : List (Ref × Call Ui)) (p : Ref) :
    (∀ (n : String) (B : Builder Cfg Ui E) (c : Cfg),
        ({ name := n, builder := B, rawConfig := c } : coreBuild Cfg Ui E).prepareCalled = false
          ∧ ({ name := n, builder := B, rawConfig := c } : coreBuild Cfg Ui E).lifecycle
              = .Unprepared)
      ∧ (((execAll pre w).heap p).prepareCalled = true →
          ((execAll (pre ++ post) w).heap p).prepareCalled = true
            ∧ ((exec post (execAll pre w)).state.heap p).prepareCalled = true
            ∧ (∀ (q : Ref) (c : Call Ui),
                ((step q c (execAll pre w)).state.heap p).prepareCalled = true)) := by
  refine ⟨fun _ _ _ => ⟨rfl, rfl⟩, fun h => ⟨?_, ?_, ?_⟩⟩
  · rw [execAll_append]
    exact execAll_inv (fun v => (v.heap p).prepareCalled = true)
      (fun q c v hv => step_flag_mono q c v p hv) post _ h
  · exact exec_inv (fun v => (v.heap p).prepareCalled = true)
      (fun q c v hv => step_flag_mono q c v p hv) post _ h
  · intro q c
    exact step_flag_mono q c _ p h

/-- C5 for "image-a": prepared once, then run, then the other job touched. -/
theorem C5_prepared_flag_never_reverts_witness :
    ((execAll [(0, .prepare)] freshWorld).heap 0).prepareCalled = true
      ∧ ((execAll ([(0, .prepare)] ++ [(0, .run 7), (1, .run 7), (1, .prepare)])
            freshWorld).heap 0).prepareCalled = true :=
  have h0 : ((execAll [(0, .prepare)] freshWorld).heap 0).prepareCalled = true :=
    Prepare_flag 0 freshWorld
  ⟨h0, ((C5_prepared_flag_never_reverts freshWorld [(0, .prepare)]
    [(0, .run 7), (1, .run 7), (1, .prepare)] 0).2 h0).1⟩

/-- C6. Across any sequence of `Prepare`/`Run` calls (on any jobs, aborting `Run`s
included, whether every call is made or the client stops at the first panic) each job's
`name`, `builder` and `rawConfig` are what they were; `Prepare` changes nothing on the
heap except the receiver's `prepareCalled`, and `Run` changes nothing on the heap. -/
theorem C6_fields_unchanged {Cfg Ui E : Type} (w : World Cfg Ui E)
    (ops : List (Ref × Call Ui)) (p : Ref) :
    (((execAll ops w).heap p).name = (w.heap p).name
        ∧ ((execAll ops w).heap p).builder = (w.heap p).builder
        ∧ ((execAll ops w).heap p).rawConfig = (w.heap p).rawConfig)
      ∧ (((exec ops w).state.heap p).name = (w.heap p).name
        ∧ ((exec ops w).state.heap p).builder = (w.heap p).builder
        ∧ ((exec ops w).state.heap p).rawConfig = (w.heap p).rawConfig)
      ∧ (coreBuild.Prepare p w).state.heap
          = Function.update w.heap p { w.heap p with prepareCalled := true }
      ∧ (∀ ui : Ui, (coreBuild.Run p ui w).state.heap = w.heap) := by
  have hstep : ∀ (q : Ref) (c : Call Ui) (v : World Cfg Ui E),
      ((v.heap p).name = (w.heap p).name ∧ (v.heap p).builder = (w.heap p).builder
        ∧ (v.heap p).rawConfig = (w.heap p).rawConfig) →
      (((step q c v).state.heap p).name = (w.heap p).name
        ∧ ((step q c v).state.heap p).builder = (w.heap p).builder
        ∧ ((step q c v).state.heap p).rawConfig = (w.heap p).rawConfig) := by
    intro q c v hv
    obtain ⟨h1, h2, h3⟩ := step_frame q c v p
    exact ⟨h1.trans hv.1, h2.trans hv.2.1, h3.trans hv.2.2⟩
  refine ⟨?_, ?_, Prepare_heap p w, fun ui => Run_heap p ui w⟩
  · exact execAll_inv (fun v => (v.heap p).name = (w.heap p).name
      ∧ (v.heap p).builder = (w.heap p).builder
      ∧ (v.heap p).rawConfig = (w.heap p).rawConfig) hstep ops w ⟨rfl, rfl, rfl⟩
  · exact exec_inv (fun v => (v.heap p).name = (w.heap p).name
      ∧ (v.heap p).builder = (w.heap p).builder
      ∧ (v.heap p).rawConfig = (w.heap p).rawConfig) hstep ops w ⟨rfl, rfl, rfl⟩

/-- C7. On a prepared job `Run(ui)` leaves the whole heap, and so the job and its
`prepareCalled`, exactly as it was, and ends exactly as the backend's `Run(b, ui)` does on
the external state. Hence any number of consecutive `Run`s on a prepared job, and likewise
after one `Prepare` on any job, each pass the ordering check: the log gains exactly one
backend `Run(b, ui)` per call, the external state is the backend's `Run` applied once per
call in a chain (after the backend's `Prepare`, when there is one), the job is still
prepared at the end, and with a backend that never panics the whole sequence returns
normally. -/
theorem C7_run_keeps_state {Cfg Ui E : Type} (w : World Cfg Ui E) (b : Ref) (ui : Ui)
    (uis : List Ui) :
    ((w.heap b).prepareCalled = true →
        (coreBuild.Run b ui w).state.heap = w.heap
          ∧ (coreBuild.Run b ui w).map World.ext = (w.heap b).builder.Run b ui w.ext
          ∧ (execAll (onJob b (uis.map .run)) w).heap = w.heap
          ∧ (execAll (onJob b (uis.map .run)) w).calls
              = w.calls ++ uis.map (fun u => .run b b u)
          ∧ (execAll (onJob b (uis.map .run)) w).ext
              = uis.foldl (fun e u => ((w.heap b).builder.Run b u e).state) w.ext
          ∧ ((w.heap b).builder.NeverFails →
              exec (onJob b (uis.map .run)) w
                = .returned (execAll (onJob b (uis.map .run)) w)))
      ∧ (execAll (onJob b (.prepare :: uis.map .run)) w).calls
          = w.calls ++ .prepare b (w.heap b).rawConfig :: uis.map (fun u => .run b b u)
      ∧ (execAll (onJob b (.prepare :: uis.map .run)) w).ext
          = uis.foldl (fun e u => ((w.heap b).builder.Run b u e).state)
              ((w.heap b).builder.Prepare (w.heap b).rawConfig w.ext).state
      ∧ (execAll (onJob b (.prepare :: uis.map .run)) w).heap
          = (coreBuild.Prepare b w).state.heap
      ∧ ((w.heap b).builder.NeverFails →
          exec (onJob b (.prepare :: uis.map .run)) w
            = .returned (execAll (onJob b (.prepare :: uis.map .run)) w)) := by
  have e : execAll (onJob b (.prepare :: uis.map .run)) w
      = execAll (onJob b (uis.map .run)) (coreBuild.Prepare b w).state := by
    simp only [onJob, List.map_cons, execAll, step]
  obtain ⟨g1, g2⟩ := execAll_runs b uis (coreBuild.Prepare b w).state (Prepare_flag b w)
  have g3 := execAll_runs_ext b uis (coreBuild.Prepare b w).state (Prepare_flag b w)
  refine ⟨fun hf => ?_, ?_, ?_, ?_, fun hB => exec_onJob_prepare_first b _ w hB⟩
  · obtain ⟨h1, h2⟩ := execAll_runs b uis w hf
    exact ⟨Run_heap b ui w, Run_prepared_map_ext b ui w hf, h1, h2,
      execAll_runs_ext b uis w hf, fun hB => exec_onJob_prepared b _ w hf hB⟩
  · rw [e, g2, Prepare_calls]
    simp
  · rw [e, g3, Prepare_cell, Prepare_ext]
  · rw [e, g1]

/-- C7 for "image-a" prepared once and then run three times: the sinks 7, 8, 9 have each
received "built" once, in that order. -/
theorem C7_run_keeps_state_witness :
    ((coreBuild.Prepare 0 freshWorld).state.heap 0).prepareCalled = true
      ∧ recordingBuilder.NeverFails
      ∧ (execAll (onJob 0 ([7, 8, 9].map .run)) (coreBuild.Prepare 0 freshWorld).state).heap
          = (coreBuild.Prepare 0 freshWorld).state.heap
      ∧ (execAll (onJob 0 (.prepare :: [7, 8, 9].map .run)) freshWorld).ext
          = { recorded := ["cfg-a"], sink := [(7, "built"), (8, "built"), (9, "built")] }
      ∧ exec (onJob 0 (.prepare :: [7, 8, 9].map .run)) freshWorld
          = .returned (execAll (onJob 0 (.prepare :: [7, 8, 9].map .run)) freshWorld) :=
  ⟨Prepare_flag 0 freshWorld, recordingBuilder_neverFails,
    ((C7_run_keeps_state (coreBuild.Prepare 0 freshWorld).state 0 7 [7, 8, 9]).1
      (Prepare_flag 0 freshWorld)).2.2.1,
    (C7_run_keeps_state freshWorld 0 7 [7, 8, 9]).2.2.1.trans rfl,
    (C7_run_keeps_state freshWorld 0 7 [7, 8, 9]).2.2.2.2 recordingBuilder_neverFails⟩

/-- C8. On a prepared job, `b.Run(ui)` ends exactly as `b.builder.Run(b, ui)` does on the
external state: same return-or-panic, same panic message, same resulting backend and sink
state; it makes that one backend call and leaves the heap alone. Likewise `b.Prepare()`,
on any job, ends exactly as `b.builder.Prepare(b.rawConfig)` does and makes that one
backend call. -/
theorem C8_pass_through {Cfg Ui E : Type} (w : World Cfg Ui E) (b : Ref) (ui : Ui) :
    ((w.heap b).prepareCalled = true →
        (coreBuild.Run b ui w).map World.ext = (w.heap b).builder.Run b ui w.ext
          ∧ (coreBuild.Run b ui w).state.calls = w.calls ++ [.run b b ui]
          ∧ (coreBuild.Run b ui w).state.heap = w.heap)
      ∧ (coreBuild.Prepare b w).map World.ext
          = (w.heap b).builder.Prepare (w.heap b).rawConfig w.ext
      ∧ (coreBuild.Prepare b w).state.calls = w.calls ++ [.prepare b (w.heap b).rawConfig] := by
  refine ⟨fun hf => ⟨?_, Run_prepared_calls b ui w hf, Run_heap b ui w⟩, ?_, Prepare_calls b w⟩
  · rw [Run_prepared b ui w hf, invoke_map_ext]
  · simp [coreBuild.Prepare, invoke_map_ext]

/-- C8 on a prepared job whose backend's `Prepare` panics: `Run` ends as the backend's
`Run` does, and the panic comes out of `coreBuild.Prepare` as the backend raised it. -/
theorem C8_pass_through_witness :
    ((coreBuild.Prepare 0 failingWorld).state.heap 0).prepareCalled = true
      ∧ (coreBuild.Run 0 7 (coreBuild.Prepare 0 failingWorld).state).map World.ext
          = failingBuilder.Run 0 7 (coreBuild.Prepare 0 failingWorld).state.ext
      ∧ (coreBuild.Prepare 0 failingWorld).map World.ext
          = failingBuilder.Prepare "cfg-c" failingWorld.ext :=
  ⟨Prepare_flag 0 failingWorld,
    ((C8_pass_through (coreBuild.Prepare 0 failingWorld).state 0 7).1
      (Prepare_flag 0 failingWorld)).1,
    (C8_pass_through failingWorld 0 7).2.1⟩

/-- C9. Two distinct jobs `a` and `b` with different `rawConfig`s, under any interleaved
sequence of calls. In every state `v` reached by such a sequence, and for every job `q`:
`Prepare` on `q` ends exactly as `q`'s backend's `Prepare` does when given the `rawConfig`
`q` was constructed with, and `Run` on `q`, when `q` is prepared, ends exactly as `q`'s
backend's `Run` does when given `q` itself as handle; an unprepared `q` reaches no backend.
So what the backend receives on behalf of `a` is `a`'s `rawConfig`, which is not `b`'s, and
`a` as handle. The call log agrees: every call added carries its caller's own data. Calls
on `b` leave `a`'s heap cell unchanged; and if `a` is unprepared, `Run` on `a` still
panics after any calls on `b`. -/
theorem C9_job_independence {Cfg Ui E : Type} (w : World Cfg Ui E) (a b : Ref)
    (ops : List (Ref × Call Ui)) (cs : List (Call Ui)) (ui : Ui) (hab : a ≠ b)
    (hcfg : (w.heap a).rawConfig ≠ (w.heap b).rawConfig) :
    (∀ q : Ref,
        (coreBuild.Prepare q (execAll ops w)).map World.ext
            = (w.heap q).builder.Prepare (w.heap q).rawConfig (execAll ops w).ext
          ∧ (((execAll ops w).heap q).prepareCalled = true →
              (coreBuild.Run q ui (execAll ops w)).map World.ext
                = (w.heap q).builder.Run q ui (execAll ops w).ext)
          ∧ (((execAll ops w).heap q).prepareCalled = false →
              coreBuild.Run q ui (execAll ops w)
                = .panicked "Prepare must be called first" (execAll ops w)))
      ∧ ((coreBuild.Prepare a (execAll ops w)).map World.ext
            = (w.heap a).builder.Prepare (w.heap a).rawConfig (execAll ops w).ext
          ∧ (w.heap a).rawConfig ≠ (w.heap b).rawConfig)
      ∧ (∃ t, (execAll ops w).calls = w.calls ++ t
        ∧ (∀ ev ∈ t, BackendCall.own w ev)
        ∧ (∀ c, BackendCall.prepare a c ∈ t →
            c = (w.heap a).rawConfig ∧ c ≠ (w.heap b).rawConfig)
        ∧ (∀ h u, BackendCall.run a h u ∈ t → h = a))
      ∧ (execAll (onJob b cs) w).heap a = w.heap a
      ∧ ((w.heap a).prepareCalled = false →
          coreBuild.Run a ui (execAll (onJob b cs) w)
            = .panicked "Prepare must be called first" (execAll (onJob b cs) w)) := by
  have hcell : (execAll (onJob b cs) w).heap a = w.heap a := by
    apply execAll_other_jobs
    intro op hop
    simp only [onJob, List.mem_map] at hop
    obtain ⟨c, _, rfl⟩ := hop
    exact fun e => hab e.symm
  have hprep : ∀ q : Ref, (coreBuild.Prepare q (execAll ops w)).map World.ext
      = (w.heap q).builder.Prepare (w.heap q).rawConfig (execAll ops w).ext := by
    intro q
    obtain ⟨hb, hc⟩ := execAll_frame ops w q
    rw [Prepare_map_ext, hb, hc]
  obtain ⟨_, t, ht, hown⟩ := execAll_calls_own ops w
  refine ⟨fun q => ⟨hprep q, fun hf => ?_, fun hf => Run_unprepared q ui _ hf⟩,
    ⟨hprep a, hcfg⟩, ⟨t, ht, hown, ?_, ?_⟩, hcell, ?_⟩
  · rw [Run_prepared_map_ext q ui _ hf, (execAll_frame ops w q).1]
  · intro c hc
    have : c = (w.heap a).rawConfig := hown _ hc
    exact ⟨this, by rw [this]; exact hcfg⟩
  · intro h u hr
    exact hown _ hr
  · intro h0
    exact Run_unprepared a ui _ (by rw [hcell]; exact h0)

/-- C9 for "image-a" and "image-b" on a backend that records what it is given: with both
jobs prepared and `b` run, a further `Prepare` on `a` hands the backend "cfg-a" and a `Run`
on `a` hands it the handle 0; and while only `b` is prepared and run, the untouched `a`
stays unprepared and its `Run` panics. -/
theorem C9_job_independence_witness :
    (0 : Ref) ≠ 1 ∧ (tracingWorld.heap 0).rawConfig ≠ (tracingWorld.heap 1).rawConfig
      ∧ (tracingWorld.heap 0).prepareCalled = false
      ∧ (coreBuild.Prepare 0
            (execAll [(0, .prepare), (1, .prepare), (1, .run 3)] tracingWorld)).map World.ext
          = .returned { recorded := ["cfg-a", "cfg-b", "handle 1", "cfg-a"],
                        sink := [(3, "built")] }
      ∧ (coreBuild.Run 0 7
            (execAll [(0, .prepare), (1, .prepare), (1, .run 3)] tracingWorld)).map World.ext
          = .returned { recorded := ["cfg-a", "cfg-b", "handle 1", "handle 0"],
                        sink := [(3, "built"), (7, "built")] }
      ∧ (execAll (onJob 1 [.prepare, .run 7]) tracingWorld).heap 0 = tracingWorld.heap 0
      ∧ coreBuild.Run 0 7 (execAll (onJob 1 [.prepare, .run 7]) tracingWorld)
          = .panicked "Prepare must be called first"
              (execAll (onJob 1 [.prepare, .run 7]) tracingWorld) :=
  have h := C9_job_independence tracingWorld 0 1 [(0, .prepare), (1, .prepare), (1, .run 3)]
    [.prepare, .run 7] 7 (by decide) (by decide)
  ⟨by decide, by decide, rfl, (h.1 0).1.trans rfl, ((h.1 0).2.1 rfl).trans rfl,
    h.2.2.2.1, h.2.2.2.2 rfl⟩

/-- C10. On an unprepared job with a backend that never panics, straight-line client code
making the calls `cs` panics if and only if some `Run` in `cs` comes before the first
`Prepare`; when it does, that `Run` is the first call, the panic is the ordering panic,
and the world is the initial one (no backend call was logged, nothing external changed).
`Prepare` itself, on any job, never panics with such a backend. -/
theorem C10_only_ordering_violation_aborts {Cfg Ui E : Type} (w : World Cfg Ui E) (b : Ref)
    (cs : List (Call Ui)) :
    ((w.heap b).prepareCalled = false → (w.heap b).builder.NeverFails →
        ((exec (onJob b cs) w).isPanic = true
            ↔ ∃ (i : Nat) (ui : Ui), cs[i]? = some (Call.run ui)
                ∧ ∀ j : Nat, j < i → cs[j]? ≠ some Call.prepare)
          ∧ ((exec (onJob b cs) w).isPanic = true →
              exec (onJob b cs) w = .panicked "Prepare must be called first" w
                ∧ (exec (onJob b cs) w).state.calls = w.calls
                ∧ ∃ ui : Ui, cs[0]? = some (Call.run ui)))
      ∧ ((w.heap b).builder.NeverFails → (coreBuild.Prepare b w).isPanic = false) := by
  refine ⟨fun hfresh hB => ?_, fun h1 => by rw [Prepare_isPanic]; exact h1.1 _ _⟩
  cases cs with
  | nil =>
    refine ⟨⟨fun h => ?_, fun h => ?_⟩, fun h => ?_⟩
    · cases h
    · obtain ⟨i, ui, hi, _⟩ := h
      simp at hi
    · cases h
  | cons c cs =>
    cases c with
    | prepare =>
      have e := exec_onJob_prepare_first b cs w hB
      refine ⟨⟨fun h => ?_, fun h => ?_⟩, fun h => ?_⟩
      · rw [e] at h
        cases h
      · obtain ⟨i, ui, hi, hj⟩ := h
        cases i with
        | zero => simp at hi
        | succ i => exact absurd (by simp) (hj 0 (Nat.succ_pos i))
      · rw [e] at h
        cases h
    | run ui =>
      have e : exec (onJob b (.run ui :: cs)) w = .panicked "Prepare must be called first" w := by
        simp only [onJob, List.map_cons, exec, step]
        rw [Run_unprepared b ui w hfresh]
      have h0 : (Call.run ui :: cs)[0]? = some (Call.run ui) := by simp
      refine ⟨⟨fun _ => ⟨0, ui, h0, fun j hj => absurd hj (Nat.not_lt_zero j)⟩, fun _ => ?_⟩,
        fun _ => ⟨e, ?_, ui, h0⟩⟩
      · rw [e]; rfl
      · rw [e]; rfl

/-- C10 for the fresh job "image-b": `Run; Prepare; Run` stops at the first call, in the
initial world. -/
theorem C10_only_ordering_violation_aborts_witness :
    (freshWorld.heap 1).prepareCalled = false ∧ recordingBuilder.NeverFails
      ∧ exec (onJob 1 [.run 7, .prepare, .run 7]) freshWorld
          = .panicked "Prepare must be called first" freshWorld :=
  have h := (C10_only_ordering_violation_aborts freshWorld 1 [.run 7, .prepare, .run 7]).1 rfl
    recordingBuilder_neverFails
  ⟨rfl, recordingBuilder_neverFails, (h.2 (h.1.2 ⟨0, 7, by simp, fun j hj =>
    absurd hj (Nat.not_lt_zero j)⟩)).1⟩

/-- C11. The handle the backend's `Run` receives is the job itself behind the `Build`
interface, and it is handed out only by a `Run` that found `prepareCalled` true: if `Run`
logged a backend call at all, the flag was true and the call is `Run(b, ui)` with handle
`b`. From a state where the flag is true, each method reachable through the handle
(`Prepare`, `Run`) leaves it true, whether it returns or panics, and so does every
sequence of such method calls interleaved with effects on the external state; the job is
still Prepared afterwards, and also after the `Run` that handed the handle out. -/
theorem C11_handle_keeps_lifecycle {Cfg Ui E : Type} (w : World Cfg Ui E) (b : Ref) (ui : Ui)
    (script : List (HandleStep Ui E)) :
    ((coreBuild.Run b ui w).state.calls ≠ w.calls →
        (w.heap b).prepareCalled = true
          ∧ (coreBuild.Run b ui w).state.calls = w.calls ++ [.run b b ui]
          ∧ (coreBuild.Run b ui w).map World.ext = (w.heap b).builder.Run b ui w.ext)
      ∧ ((w.heap b).prepareCalled = true →
          (((coreBuild.asBuild b).Prepare w).state.heap b).prepareCalled = true
            ∧ (∀ u : Ui, (((coreBuild.asBuild b).Run u w).state.heap b).prepareCalled = true)
            ∧ ((Build.useAll (coreBuild.asBuild b) script w).heap b).prepareCalled = true
            ∧ ((Build.useAll (coreBuild.asBuild b) script w).heap b).lifecycle = .Prepared
            ∧ ((coreBuild.Run b ui w).state.heap b).prepareCalled = true) := by
  refine ⟨fun hne => ?_, fun hf => ?_⟩
  · have hf : (w.heap b).prepareCalled = true := by
      cases hb : (w.heap b).prepareCalled with
      | true => rfl
      | false =>
        rw [Run_unprepared b ui w hb] at hne
        exact absurd rfl hne
    refine ⟨hf, Run_prepared_calls b ui w hf, ?_⟩
    rw [Run_prepared b ui w hf, invoke_map_ext]
  · have hs := useAll_flag_mono b script w b hf
    refine ⟨Prepare_flag b w, fun u => step_flag_mono b (.run u) w b hf, hs, ?_,
      step_flag_mono b (.run ui) w b hf⟩
    simp [coreBuild.lifecycle, hs]

/-- C11 for "image-a" once prepared: through the handle the holder prepares again, writes
to the external state and runs, and the job is still prepared. -/
theorem C11_handle_keeps_lifecycle_witness :
    ((coreBuild.Prepare 0 freshWorld).state.heap 0).prepareCalled = true
      ∧ ((Build.useAll (coreBuild.asBuild 0)
            [.call .prepare, .effect (fun e => { e with recorded := [] }), .call (.run 3)]
            (coreBuild.Prepare 0 freshWorld).state).heap 0).prepareCalled = true
      ∧ ((coreBuild.Run 0 7 (coreBuild.Prepare 0 freshWorld).state).state.heap 0).prepareCalled
          = true :=
  have h := (C11_handle_keeps_lifecycle (coreBuild.Prepare 0 freshWorld).state 0 7
    [.call .prepare, .effect (fun e => { e with recorded := [] }), .call (.run 3)]).2
    (Prepare_flag 0 freshWorld)
  ⟨Prepare_flag 0 freshWorld, h.2.2.1, h.2.2.2.2⟩

end packer
